import Mathlib

/-!
# Verification of the dataflow engine core (`src/engine/dataflow.rs`)

This file shallowly embeds the parts of the dataflow graph builder needed to
settle the frozen claims: the value/key data model, column paths, the
per-row / per-key logic of `filter_table`, `flatten_table`, `ix_table`
(`ForwardNone` policy), `update_rows_table`, `update_cells_table`,
`table_to_stream`, the group-by reducer pipelines, the
`intersect`/`subtract`/`concat` table algebra in diff space, the
`filter_out_errors` sink discipline, and the `iterate` limit handling.

Collections at a fixed logical time are modelled as lists of
`((Key, Value), diff)` entries with integer diffs; differential `reduce`
closures are modelled as functions on the consolidated per-key input they
receive; side error logs are returned explicitly as lists of `DataError`
values; calls that report a fatal error through the `ErrorReporter`
(`unwrap_with_reporter`) are modelled with `Except String`.
-/

/-- JSON values (`serde_json::Value`), restricted to the variants that are
decidable; floating-point numbers are omitted from the model. -/
inductive Json where
  | null
  | bool (b : Bool)
  | int (i : Int)
  | str (s : String)
  | arr (elems : List Json)

mutual
/-- The engine `Value` type (`engine::value::Value`): a tagged variant.
Float-carrying variants (`Float`, `FloatArray`), date/time variants and
`PyObjectWrapper` are omitted from the model (they do not occur in the
claims); `IntArray` is modelled as a shape together with the flat element
list, mirroring `ndarray::ArrayD<i64>`. -/
inductive Value where
  | none
  | bool (b : Bool)
  | int (i : Int)
  | str (s : String)
  | pointer (k : Key)
  | tuple (vs : List Value)
  | intArray (shape : List Nat) (elems : List Int)
  | json (j : Json)
  | error
  | pending

/-- Modelled from the spec: a `Key` is a 128-bit content-addressed hash with
a shard field; keys are generated by hashing a tuple of values
(`for_values`), by copying the shard of another key (`with_shard_of`), or
randomly / from input offsets (`base`).  The hash is idealised as injective,
so keys are represented by their generating data. -/
inductive Key where
  | base (n : Nat)
  | forValues (vs : List Value)
  | withShardOf (k : Key) (of : Key)
end

mutual
/-- Boolean equality on `Json` (structural). -/
def Json.beq : Json → Json → Bool
  | .null, .null => true
  | .bool a, .bool b => a == b
  | .int a, .int b => a == b
  | .str a, .str b => a == b
  | .arr a, .arr b => Json.beqList a b
  | _, _ => false

/-- Boolean equality on lists of `Json`. -/
def Json.beqList : List Json → List Json → Bool
  | [], [] => true
  | a :: as, b :: bs => Json.beq a b && Json.beqList as bs
  | _, _ => false
end

mutual
/-- Boolean equality on `Value` (structural). -/
def Value.beq : Value → Value → Bool
  | .none, .none => true
  | .bool a, .bool b => a == b
  | .int a, .int b => a == b
  | .str a, .str b => a == b
  | .pointer a, .pointer b => Key.beq a b
  | .tuple a, .tuple b => Value.beqList a b
  | .intArray sa ea, .intArray sb eb => sa == sb && ea == eb
  | .json a, .json b => Json.beq a b
  | .error, .error => true
  | .pending, .pending => true
  | _, _ => false

/-- Boolean equality on lists of `Value`. -/
def Value.beqList : List Value → List Value → Bool
  | [], [] => true
  | a :: as, b :: bs => Value.beq a b && Value.beqList as bs
  | _, _ => false

/-- Boolean equality on `Key` (structural). -/
def Key.beq : Key → Key → Bool
  | .base m, .base n => m == n
  | .forValues a, .forValues b => Value.beqList a b
  | .withShardOf k1 o1, .withShardOf k2 o2 => Key.beq k1 k2 && Key.beq o1 o2
  | _, _ => false
end

theorem jsonBeq_iff_aux :
    ∀ n, (∀ a b : Json, sizeOf a ≤ n → (Json.beq a b = true ↔ a = b)) ∧
      (∀ xs ys : List Json, sizeOf xs ≤ n → (Json.beqList xs ys = true ↔ xs = ys)) := by
  intro n
  induction n using Nat.strong_induction_on with
  | _ n ih =>
    constructor
    · intro a b hs
      cases a <;> cases b
      case arr.arr xs ys =>
        have hlt : sizeOf xs < n := by simp at hs; omega
        simp only [Json.beq, Json.arr.injEq]
        exact (ih (sizeOf xs) hlt).2 xs ys le_rfl
      all_goals simp [Json.beq]
    · intro xs ys hs
      cases xs <;> cases ys
      case cons.cons a as b bs =>
        have ha : sizeOf a < n := by simp at hs; omega
        have has : sizeOf as < n := by simp at hs; omega
        simp only [Json.beqList, Bool.and_eq_true, List.cons.injEq]
        rw [(ih (sizeOf a) ha).1 a b le_rfl, (ih (sizeOf as) has).2 as bs le_rfl]
      all_goals simp [Json.beqList]

theorem jsonBeq_iff_eq (a b : Json) : Json.beq a b = true ↔ a = b :=
  (jsonBeq_iff_aux (sizeOf a)).1 a b le_rfl

instance : DecidableEq Json := fun a b => decidable_of_iff _ (jsonBeq_iff_eq a b)

theorem valueBeq_iff_aux :
    ∀ n, (∀ a b : Value, sizeOf a ≤ n → (Value.beq a b = true ↔ a = b)) ∧
      (∀ xs ys : List Value, sizeOf xs ≤ n → (Value.beqList xs ys = true ↔ xs = ys)) ∧
      (∀ k l : Key, sizeOf k ≤ n → (Key.beq k l = true ↔ k = l)) := by
  intro n
  induction n using Nat.strong_induction_on with
  | _ n ih =>
    refine ⟨?_, ?_, ?_⟩
    · intro a b hs
      cases a <;> cases b
      case pointer.pointer k l =>
        have hlt : sizeOf k < n := by simp at hs; omega
        simp only [Value.beq, Value.pointer.injEq]
        exact (ih (sizeOf k) hlt).2.2 k l le_rfl
      case tuple.tuple xs ys =>
        have hlt : sizeOf xs < n := by simp at hs; omega
        simp only [Value.beq, Value.tuple.injEq]
        exact (ih (sizeOf xs) hlt).2.1 xs ys le_rfl
      case json.json j1 j2 =>
        simp only [Value.beq, Value.json.injEq]
        exact jsonBeq_iff_eq j1 j2
      all_goals simp [Value.beq]
    · intro xs ys hs
      cases xs <;> cases ys
      case cons.cons a as b bs =>
        have ha : sizeOf a < n := by simp at hs; omega
        have has : sizeOf as < n := by simp at hs; omega
        simp only [Value.beqList, Bool.and_eq_true, List.cons.injEq]
        rw [(ih (sizeOf a) ha).1 a b le_rfl, (ih (sizeOf as) has).2.1 as bs le_rfl]
      all_goals simp [Value.beqList]
    · intro k l hs
      cases k <;> cases l
      case forValues.forValues xs ys =>
        have hlt : sizeOf xs < n := by simp at hs; omega
        simp only [Key.beq, Key.forValues.injEq]
        exact (ih (sizeOf xs) hlt).2.1 xs ys le_rfl
      case withShardOf.withShardOf k1 o1 k2 o2 =>
        have hk : sizeOf k1 < n := by simp at hs; omega
        have ho : sizeOf o1 < n := by simp at hs; omega
        simp only [Key.beq, Bool.and_eq_true, Key.withShardOf.injEq]
        rw [(ih (sizeOf k1) hk).2.2 k1 k2 le_rfl, (ih (sizeOf o1) ho).2.2 o1 o2 le_rfl]
      all_goals simp [Key.beq]

theorem valueBeq_iff_eq (a b : Value) : Value.beq a b = true ↔ a = b :=
  (valueBeq_iff_aux (sizeOf a)).1 a b le_rfl

theorem keyBeq_iff_eq (a b : Key) : Key.beq a b = true ↔ a = b :=
  (valueBeq_iff_aux (sizeOf a)).2.2 a b le_rfl

instance : DecidableEq Value := fun a b => decidable_of_iff _ (valueBeq_iff_eq a b)

instance : DecidableEq Key := fun a b => decidable_of_iff _ (keyBeq_iff_eq a b)

/-- The structured data errors logged by operators
(`engine::error::DataError`), restricted to the variants the claims
mention. -/
inductive DataError where
  | duplicateKey (k : Key)
  | updatingNonExistingRow (k : Key)
  | keyMissingInOutputTable (k : Key)
  | errorInFilter
  | errorInOutput
  | errorInGroupby
  | valueError (msg : String)
  deriving DecidableEq

/-- The engine-level errors (`engine::error::Error`), restricted to the
variant the claims mention. -/
inductive EngineError where
  | iterationLimitTooSmall
  deriving DecidableEq

/-- `Value::as_bool` — succeeds only on `Value::Bool`. -/
def Value.as_bool : Value → Except String Bool
  | .bool b => .ok b
  | _ => .error "expected bool"

/-- `Value::as_pointer` — succeeds only on `Value::Pointer`. -/
def Value.as_pointer : Value → Except String Key
  | .pointer k => .ok k
  | _ => .error "expected pointer"

/-- `Value::into_result` — `Value::Error` becomes `Err`, any other value is
`Ok` of itself. -/
def Value.into_result : Value → Except Unit Value
  | .error => .error ()
  | v => .ok v

/-- Modelled from the spec: a `ColumnPath` (from `engine::dataflow::shard`
users; the type itself lives outside `src/`) is either the row key or a
sequence of positional steps navigating the tuple tree of the payload. -/
inductive ColumnPath where
  | keyPath
  | valuePath (steps : List Nat)
  deriving DecidableEq, Repr

/-- Modelled from the spec: navigation of the tuple tree by positional
indices; `Value::Error` propagates through extraction (`Error` taints
downstream computation), a non-tuple or an out-of-range index is a fatal
error. -/
def extractSteps : List Nat → Value → Except String Value
  | [], v => .ok v
  | _ :: _, .error => .ok .error
  | i :: rest, .tuple vs =>
    match vs.get? i with
    | some v => extractSteps rest v
    | Option.none => .error "index out of bounds"
  | _ :: _, _ => .error "cannot index into non-tuple"

/-- Modelled from the spec: `ColumnPath::extract(key, value)` — the key path
yields the row key as a pointer value, a value path navigates the tuple
tree. -/
def ColumnPath.extract : ColumnPath → Key → Value → Except String Value
  | .keyPath, k, _ => .ok (.pointer k)
  | .valuePath steps, _, v => extractSteps steps v

example : extractSteps [0] (.tuple [.int 3, .int 4]) = .ok (.int 3) := by rfl
example : extractSteps [1] .error = .ok .error := by rfl
example : ColumnPath.extract (.valuePath [0]) (.base 0) (.int 3) =
    .error "cannot index into non-tuple" := by rfl

/-! ## `update_rows_table` / `update_cells_table`

Both operators concatenate the "original" stream (labelled
`MaybeUpdate::Original`) with the "update" stream (labelled
`MaybeUpdate::Update`), arrange by key (`update_rows_arrange`) and run
`reduce_abelian`.  The reduce closure receives, per key, the consolidated
list of `(MaybeUpdate<Value>, diff)` pairs, sorted by the label (all
`Original` entries precede all `Update` entries); it pushes output rows and
logs `DataError`s.  The closures at `dataflow.rs:2357` and
`dataflow.rs:2398` are embedded below, returning the logged errors together
with the pushed `(value, diff)` rows. -/

/-- `MaybeUpdate<T>` (dataflow.rs:932), instantiated at `Value`. -/
inductive MaybeUpdate where
  | original (v : Value)
  | update (v : Value)
  deriving DecidableEq

/-- The `reduce_abelian` closure of `update_rows_table` (dataflow.rs:2357).
Returns the logged errors and the pushed output rows. -/
def update_rows_reduce (k : Key) (input : List (MaybeUpdate × Int)) :
    List DataError × List (Value × Int) :=
  match input with
  | [(.original v, 1)] => ([], [(v, 1)])
  | [(.update v, 1)] => ([], [(v, 1)])
  | [(.original _, 1), (.update v, 1)] => ([], [(v, 1)])
  | _ => ([.duplicateKey k], [])

/-- Builds the output row of `update_cells_table`: the original values
followed by the selected paths extracted from the selected values
(dataflow.rs:2426-2432). -/
def update_cells_mk (k : Key) (original selected : Value) (paths : List ColumnPath) :
    Except String Value := do
  let updates ← paths.mapM (fun p => p.extract k selected)
  pure (Value.tuple (original :: updates))

/-- The `reduce_abelian` closure of `update_cells_table` (dataflow.rs:2398).
Returns the logged errors and the pushed output rows; `Except` captures the
fatal path-extraction failures reported through the `ErrorReporter`. -/
def update_cells_reduce (k : Key) (column_paths update_paths : List ColumnPath)
    (input : List (MaybeUpdate × Int)) :
    Except String (List DataError × List (Value × Int)) :=
  match input with
  | [(.original ov, 1)] => do
    let r ← update_cells_mk k ov ov column_paths
    pure ([], [(r, 1)])
  | [(.original ov, 1), (.update nv, 1)] => do
    let r ← update_cells_mk k ov nv update_paths
    pure ([], [(r, 1)])
  | (.original ov, 1) :: (.update _, _) :: _ => do
    -- if there's exactly one original entry, keep it to preserve the universe keys
    let r ← update_cells_mk k ov .error update_paths
    pure ([.duplicateKey k], [(r, 1)])
  | [(.update _, 1)] => pure ([.updatingNonExistingRow k], [])
  | _ => pure ([.duplicateKey k], [])

/-- The three input shapes the spec lists for the update operators: one
original alone, one update alone, or exactly one original plus exactly one
update (each with diff `+1`). -/
def shapeListed : List (MaybeUpdate × Int) → Bool
  | [(.original _, 1)] => true
  | [(.update _, 1)] => true
  | [(.original _, 1), (.update _, 1)] => true
  | _ => false

example : update_rows_reduce (.base 0) [(.update (.int 5), 1)] = ([], [(.int 5, 1)]) := by rfl
example : update_cells_reduce (.base 0) [] [] [(.update (.int 5), 1)] =
    .ok ([.updatingNonExistingRow (.base 0)], []) := by rfl
example : update_cells_reduce (.base 0) [] [.valuePath [0]]
    [(.original (.int 1), 1), (.update (.int 2), 2)] =
    .ok ([.duplicateKey (.base 0)], [(.tuple [.int 1, .error], 1)]) := by rfl

/-- Claim C1 counterexample: in `update_rows_table`, a key with one update
row and no original row is kept with the update's values and emits no
error, contradicting "every key that has at least one update row but no
original row emits an `UpdatingNonExistingRow` error and is dropped". -/
theorem C1_counterexample :
    ¬((update_rows_reduce (.base 0) [(.update (.int 5), 1)]).1 =
        [DataError.updatingNonExistingRow (.base 0)] ∧
      (update_rows_reduce (.base 0) [(.update (.int 5), 1)]).2 = []) := by
  intro h
  simp [update_rows_reduce] at h

/-- Claim C1 (amended): in `update_cells_table`, every key whose reduce
input consists only of update entries is dropped from the output, emitting
`UpdatingNonExistingRow` when the input is a single update with diff `+1`
and `DuplicateKey` otherwise; in `update_rows_table`, such a key is kept
with the update's values and no error when the input is a single update
with diff `+1`, and is dropped with `DuplicateKey` otherwise. -/
theorem C1_amended (k : Key) (cp up : List ColumnPath)
    (input : List (MaybeUpdate × Int))
    (h : ∀ e ∈ input, ∃ w, e.1 = MaybeUpdate.update w) :
    update_rows_reduce k input =
      (match input with
        | [(.update w, 1)] => ([], [(w, 1)])
        | _ => ([.duplicateKey k], [])) ∧
    update_cells_reduce k cp up input =
      .ok (match input with
        | [(.update _, 1)] => ([.updatingNonExistingRow k], [])
        | _ => ([.duplicateKey k], [])) := by
  constructor
  · unfold update_rows_reduce
    split
    · obtain ⟨w, hw⟩ := h _ (List.mem_singleton_self _)
      simp at hw
    · simp
    · obtain ⟨w, hw⟩ := h _ (List.mem_cons_self _ _)
      simp at hw
    · rename_i hn1 hn2 hn3
      split
      · rename_i w hh
        exact (hn2 w rfl).elim
      · rfl
  · unfold update_cells_reduce
    split
    · obtain ⟨w, hw⟩ := h _ (List.mem_singleton_self _)
      simp at hw
    · obtain ⟨w, hw⟩ := h _ (List.mem_cons_self _ _)
      simp at hw
    · obtain ⟨w, hw⟩ := h _ (List.mem_cons_self _ _)
      simp at hw
    · simp [pure, Except.pure]
    · rename_i hn1 hn2 hn3 hn4
      split
      · rename_i w hh
        exact (hn4 w rfl).elim
      · rfl

/-- Claim C1 witness. -/
theorem C1_amended_witness :
    update_rows_reduce (.base 0) [(.update (.int 5), 1)] = ([], [(.int 5, 1)]) ∧
    update_cells_reduce (.base 0) [] [] [(.update (.int 5), 1)] =
      .ok ([.updatingNonExistingRow (.base 0)], []) := by
  have h := C1_amended (.base 0) [] [] [(.update (.int 5), 1)] (by simp)
  simpa using h

/-- The value a column path extracts from `Value::Error`: the key path still
yields the row key, a value path propagates the error. -/
def extractFromError (k : Key) : ColumnPath → Value
  | .keyPath => .pointer k
  | .valuePath _ => .error

theorem extract_error (p : ColumnPath) (k : Key) :
    p.extract k .error = .ok (extractFromError k p) := by
  cases p with
  | keyPath => rfl
  | valuePath steps => cases steps <;> rfl

theorem update_cells_mk_error (k : Key) (ov : Value) (paths : List ColumnPath) :
    update_cells_mk k ov .error paths =
      .ok (Value.tuple (ov :: paths.map (extractFromError k))) := by
  unfold update_cells_mk
  have h : paths.mapM (fun p => p.extract k Value.error) =
      .ok (paths.map (extractFromError k)) := by
    induction paths with
    | nil => rfl
    | cons p ps ih => rw [List.mapM_cons, extract_error, ih]; rfl
  rw [h]
  rfl

/-- Claim C4 counterexample: in `update_cells_table`, the input shape "one
original with diff `+1` followed by an update with diff `+2`" is not one of
the three listed shapes and emits `DuplicateKey`, yet the key is *kept* in
the output (with the original values and the update columns extracted from
`Value::Error`), contradicting "... emits a DuplicateKey error and is
dropped from the output". -/
theorem C4_counterexample :
    shapeListed [(.original (.int 1), 1), (.update (.int 2), 2)] = false ∧
    update_cells_reduce (.base 0) [] [.valuePath [0]]
        [(.original (.int 1), 1), (.update (.int 2), 2)] =
      .ok ([.duplicateKey (.base 0)], [(.tuple [.int 1, .error], 1)]) ∧
    ([(Value.tuple [.int 1, .error], 1)] : List (Value × Int)) ≠ [] := by
  refine ⟨rfl, rfl, by simp⟩

/-- Claim C4 (amended): for both `update_rows_table` and
`update_cells_table`, every key whose consolidated reduce input is not one
of the three listed shapes emits a `DuplicateKey` error; the key is dropped
from the output, except in `update_cells_table` when the input starts with
exactly one original entry (diff `+1`) directly followed by an update
entry: then the original row is kept, with the update paths extracted from
`Value::Error`. -/
theorem C4_amended (k : Key) (cp up : List ColumnPath)
    (input : List (MaybeUpdate × Int))
    (hsl : shapeListed input = false) :
    update_rows_reduce k input = ([.duplicateKey k], []) ∧
    update_cells_reduce k cp up input =
      .ok (match input with
        | (.original ov, 1) :: (.update _, _) :: _ =>
          ([.duplicateKey k], [(.tuple (ov :: up.map (extractFromError k)), 1)])
        | _ => ([.duplicateKey k], [])) := by
  constructor
  · unfold update_rows_reduce
    split
    · simp [shapeListed] at hsl
    · simp [shapeListed] at hsl
    · simp [shapeListed] at hsl
    · rfl
  · unfold update_cells_reduce
    split
    · simp [shapeListed] at hsl
    · simp [shapeListed] at hsl
    · rw [update_cells_mk_error]
      rfl
    · simp [shapeListed] at hsl
    · rename_i hn1 hn2 hn3 hn4
      split
      · rename_i ov u d rest hh
        exact (hn3 ov u d rest rfl).elim
      · rfl

/-- Claim C4 witness. -/
theorem C4_amended_witness :
    update_rows_reduce (.base 0) [(.original (.int 7), 2)] =
      ([.duplicateKey (.base 0)], []) ∧
    update_cells_reduce (.base 0) [] [] [(.original (.int 7), 2)] =
      .ok ([.duplicateKey (.base 0)], []) := by
  have h := C4_amended (.base 0) [] [] [(.original (.int 7), 2)] rfl
  simpa using h

/-! ## `filter_table` (dataflow.rs:1899-1932)

Per-row logic of the `flat_map` closure: extract the filtering column,
convert `Value::Error` to `Bool(false)` while logging `ErrorInFilter`, then
keep the row iff the value is `true`.  Fatal paths (`unwrap_with_reporter`:
extraction failure, non-bool filter value) are modelled with `Except`. -/

/-- The `flat_map` closure of `filter_table`: returns the logged errors and
the optionally kept row. -/
def filter_table_row (path : ColumnPath) (k : Key) (values : Value) :
    Except String (List DataError × Option (Key × Value)) := do
  let v ← path.extract k values
  let (errs, v) :=
    match v.into_result with
    | .ok v => ([], v)
    | .error () => ([DataError.errorInFilter], Value.bool false)
  let b ← v.as_bool
  pure (errs, if b then some (k, values) else Option.none)

/-- Claim C10: a row whose filtering column evaluates to `Value::Error`
logs `ErrorInFilter`, is treated as `false` and dropped, and the operator
does not fail. -/
theorem C10_filter_error_dropped (path : ColumnPath) (k : Key) (values : Value)
    (h : path.extract k values = .ok .error) :
    filter_table_row path k values = .ok ([DataError.errorInFilter], Option.none) := by
  unfold filter_table_row
  rw [h]
  rfl

/-- Claim C10 witness. -/
theorem C10_witness :
    filter_table_row (.valuePath [0]) (.base 0) (.tuple [.error, .int 3]) =
      .ok ([DataError.errorInFilter], Option.none) :=
  C10_filter_error_dropped (.valuePath [0]) (.base 0) (.tuple [.error, .int 3]) rfl

/-! ## `filter_out_errors` and the sink operators

`FilterOutErrors::filter_out_errors` (dataflow.rs:888-900) drops every row
whose tuple contains `Value::Error`, logging `ErrorInOutput` per dropped
row when a logger is attached.  `output_table` (dataflow.rs:4064-4078)
applies it unconditionally to the extracted columns; `subscribe_table`
(dataflow.rs:4212-4224) applies it only when `config.skip_errors` is set
(and `filter_out_pending` when `config.skip_pending` is set).  Rows are
`(Key, Tuple)` with the tuple as a value slice. -/

/-- `values.as_value_slice().contains(&Value::Error)`. -/
def containsError (values : List Value) : Bool :=
  values.any (fun v => match v with | .error => true | _ => false)

/-- `values.as_value_slice().contains(&Value::Pending)`. -/
def containsPending (values : List Value) : Bool :=
  values.any (fun v => match v with | .pending => true | _ => false)

/-- `filter_out_errors` with a logger attached: the kept rows together with
one `ErrorInOutput` log entry per dropped row. -/
def filter_out_errors (rows : List (Key × List Value)) :
    List DataError × List (Key × List Value) :=
  ((rows.filter (fun r => containsError r.2)).map (fun _ => DataError.errorInOutput),
   rows.filter (fun r => !containsError r.2))

/-- `filter_out_pending` (dataflow.rs:906-909): no logging. -/
def filter_out_pending (rows : List (Key × List Value)) : List (Key × List Value) :=
  rows.filter (fun r => !containsPending r.2)

/-- `SubscribeConfig` fields used here (skip_errors, skip_pending). -/
structure SubscribeConfig where
  skip_errors : Bool
  skip_pending : Bool

/-- The extracted output columns of `output_table`, which applies
`filter_out_errors(Some(error_logger))` unconditionally. -/
def output_table_columns (rows : List (Key × List Value)) :
    List DataError × List (Key × List Value) :=
  filter_out_errors rows

/-- The extracted output columns of `subscribe_table`: errors filtered iff
`skip_errors`, pending filtered iff `skip_pending`. -/
def subscribe_table_columns (config : SubscribeConfig) (rows : List (Key × List Value)) :
    List DataError × List (Key × List Value) :=
  let (errs, rows) :=
    if config.skip_errors then filter_out_errors rows else ([], rows)
  (errs, if config.skip_pending then filter_out_pending rows else rows)

/-- Claim C9: `output_table` never passes a tuple containing `Value::Error`
to its sink (logging `ErrorInOutput` once per dropped row), and
`subscribe_table` filters the same way whenever `skip_errors` is set; with
`skip_errors` unset the rows reach the callbacks unchanged (up to the
independent pending filter), so only such a subscribe may deliver tuples
containing `Value::Error`. -/
theorem C9_error_opacity (rows : List (Key × List Value)) (config : SubscribeConfig) :
    (∀ r ∈ (output_table_columns rows).2, containsError r.2 = false) ∧
    (output_table_columns rows).1 =
      (rows.filter (fun r => containsError r.2)).map (fun _ => DataError.errorInOutput) ∧
    (config.skip_errors = true →
      ∀ r ∈ (subscribe_table_columns config rows).2, containsError r.2 = false) ∧
    (config.skip_errors = false →
      (subscribe_table_columns config rows).2 =
        if config.skip_pending then filter_out_pending rows else rows) := by
  refine ⟨?_, rfl, ?_, ?_⟩
  · intro r hr
    simp only [output_table_columns, filter_out_errors, List.mem_filter] at hr
    simpa using hr.2
  · intro hse r hr
    simp only [subscribe_table_columns, hse, if_true] at hr
    cases hcp : config.skip_pending <;> simp [hcp] at hr
    · simp only [filter_out_errors, List.mem_filter] at hr
      simpa using hr.2
    · simp only [filter_out_pending, filter_out_errors, List.mem_filter] at hr
      simpa using hr.1.2
  · intro hse
    simp [subscribe_table_columns, hse]

/-- Claim C9 witness. -/
theorem C9_witness :
    (∀ r ∈ (output_table_columns [((Key.base 0), [Value.error])]).2,
      containsError r.2 = false) ∧
    (subscribe_table_columns ⟨false, false⟩ [((Key.base 0), [Value.error])]).2 =
      [((Key.base 0), [Value.error])] := by
  have h := C9_error_opacity [((Key.base 0), [Value.error])] ⟨false, false⟩
  exact ⟨h.1, by simpa using h.2.2.2 rfl⟩

/-! ## `iterate` (dataflow.rs:4300-4313) and `apply_limit`
(dataflow.rs:4892-4909)

`iterate` rejects `limit <= 1` with `IterationLimitTooSmall`; inside the
nested scope, `apply_limit` filters the feedback stream to product
timestamps whose iteration index satisfies `time.inner < limit - 1`. -/

/-- The limit check at the top of `iterate`. -/
def iterate_check_limit (limit : Option Nat) : Except EngineError Unit :=
  match limit with
  | some v => if v ≤ 1 then .error .iterationLimitTooSmall else .ok ()
  | Option.none => .ok ()

/-- `AfterIterate::apply_limit`: filter the collection's inner stream by
`time.inner < limit - 1`; timestamps are products `(outer, inner)`. -/
def apply_limit {α : Type} (limit : Option Nat)
    (collection : List (α × (Nat × Nat) × Int)) : List (α × (Nat × Nat) × Int) :=
  match limit with
  | some l => collection.filter (fun u => u.2.1.2 < l - 1)
  | Option.none => collection

/-- Claim C7: `iterate` with `limit = 1` fails with
`IterationLimitTooSmall`; for `limit = n ≥ 2` the body's updates are
restricted to iteration indices strictly below `n - 1`, and for
`limit = 2` exactly the updates at iteration index `0` remain. -/
theorem C7_iterate_limit {α : Type} (n : Nat) (hn : 2 ≤ n)
    (updates : List (α × (Nat × Nat) × Int)) :
    iterate_check_limit (some 1) = .error .iterationLimitTooSmall ∧
    iterate_check_limit (some n) = .ok () ∧
    (∀ u ∈ apply_limit (some n) updates, u.2.1.2 < n - 1) ∧
    apply_limit (some n) updates = updates.filter (fun u => u.2.1.2 < n - 1) ∧
    (∀ u, u ∈ apply_limit (some 2) updates ↔ u ∈ updates ∧ u.2.1.2 = 0) := by
  refine ⟨rfl, ?_, ?_, rfl, ?_⟩
  · simp only [iterate_check_limit]
    rw [if_neg (by omega)]
  · intro u hu
    simp only [apply_limit, List.mem_filter] at hu
    simpa using hu.2
  · intro u
    simp only [apply_limit, List.mem_filter]
    constructor
    · rintro ⟨hu, hlt⟩
      refine ⟨hu, ?_⟩
      simp at hlt
      omega
    · rintro ⟨hu, hz⟩
      refine ⟨hu, ?_⟩
      simp [hz]

/-- Claim C7 witness. -/
theorem C7_witness :
    2 ≤ 2 ∧ apply_limit (some 2) [((), (0, 0), (1 : Int)), ((), (0, 1), 1)] =
      [((), (0, 0), 1)] := by
  have h := C7_iterate_limit (α := Unit) 2 (by decide)
    [((), (0, 0), (1 : Int)), ((), (0, 1), 1)]
  refine ⟨by decide, ?_⟩
  rw [h.2.2.2.1]
  rfl

/-! ## `flatten_table` (dataflow.rs:2176-2244) -/

/-- Splits a flat element list into outer slices of size `sz`
(`ndarray::outer_iter` on the flattened storage). -/
def chunks (sz : Nat) : List Int → List (List Int)
  | [] => []
  | x :: xs => (x :: xs.take (sz - 1)) :: chunks sz (xs.drop (sz - 1))
  termination_by l => l.length
  decreasing_by simp; omega

/-- `flatten_ndarray` (dataflow.rs:2182-2196) for integer arrays: a
one-dimensional array yields its elements, a higher-dimensional array
yields its outer slices. -/
def flatten_ndarray_int (shape : List Nat) (elems : List Int) : List Value :=
  if shape.length = 1 then elems.map Value.int
  else if (shape.drop 1).prod = 0 then
    List.replicate (shape.headD 0) (Value.intArray (shape.drop 1) [])
  else (chunks ((shape.drop 1).prod) elems).map (fun c => Value.intArray (shape.drop 1) c)

/-- The expansion of one flatten target (dataflow.rs:2210-2231): tuples,
int arrays, strings (to characters) and JSON arrays expand; anything else
is a `ValueError`. -/
def flattenValue : Value → Except DataError (List Value)
  | .intArray shape elems => .ok (flatten_ndarray_int shape elems)
  | .tuple vs => .ok vs
  | .str s => .ok (s.data.map (fun c => Value.str (String.mk [c])))
  | .json j =>
    match j with
    | .arr a => .ok (a.map Value.json)
    | _ => .error (.valueError "Pathway cannot flatten this Json")
  | _ => .error (.valueError "Pathway cannot flatten this value")

/-- The `flat_map` closure of `flatten_table`: extract the flatten column,
expand it (logging the `ValueError` and expanding to nothing on failure),
and emit one row per element keyed by
`Key::for_values([old_key, index]).with_shard_of(old_key)`. -/
def flatten_table_row (path : ColumnPath) (k : Key) (values : Value) :
    Except String (List DataError × List (Key × Value)) := do
  let value ← path.extract k values
  let (errs, wrapped) :=
    match flattenValue value with
    | .ok l => ([], l)
    | .error e => ([e], [])
  pure (errs, wrapped.enum.map (fun ie =>
    (Key.withShardOf (Key.forValues [Value.pointer k, Value.int ie.1]) k,
     Value.tuple [values, ie.2])))

/-- Claim C8: `flatten_table` emits exactly one row per element of the
expansion, keyed by `Key::for_values([old_key, index]).with_shard_of(old_key)`,
and the empty tuple, empty int array, empty JSON array and empty string all
expand to zero rows with no logged error. -/
theorem C8_flatten_rows (path : ColumnPath) (k : Key) (values v : Value)
    (l : List Value) (h : path.extract k values = .ok v)
    (hv : flattenValue v = .ok l) :
    flatten_table_row path k values =
      .ok ([], l.enum.map (fun ie =>
        (Key.withShardOf (Key.forValues [Value.pointer k, Value.int ie.1]) k,
         Value.tuple [values, ie.2]))) ∧
    flattenValue (.tuple []) = .ok [] ∧
    flattenValue (.intArray [0] []) = .ok [] ∧
    flattenValue (.json (.arr [])) = .ok [] ∧
    flattenValue (.str "") = .ok [] := by
  refine ⟨?_, rfl, rfl, rfl, rfl⟩
  unfold flatten_table_row
  rw [h]
  simp only [bind, Except.bind]
  rw [hv]
  rfl

/-- Claim C8 witness. -/
theorem C8_witness :
    flatten_table_row (.valuePath [0]) (.base 3) (.tuple [.tuple [.int 7, .int 8]]) =
      .ok ([], [
        (Key.withShardOf (Key.forValues [.pointer (.base 3), .int 0]) (.base 3),
         .tuple [.tuple [.tuple [.int 7, .int 8]], .int 7]),
        (Key.withShardOf (Key.forValues [.pointer (.base 3), .int 1]) (.base 3),
         .tuple [.tuple [.tuple [.int 7, .int 8]], .int 8])]) := by
  have h := C8_flatten_rows (.valuePath [0]) (.base 3) (.tuple [.tuple [.int 7, .int 8]])
    (.tuple [.int 7, .int 8]) [.int 7, .int 8] rfl rfl
  rw [h.1]
  rfl

/-! ## `intersect_tables` / `subtract_table` / `concat_tables`
(dataflow.rs:2060-2174)

Collections at a fixed logical time are lists of `((Key, Value), diff)`
entries; the observable multiset is the per-`(key, value)` sum of diffs
(`mult`).  A key arrangement is the projection to `(Key, diff)`;
`join_core` of a values arrangement with a key arrangement multiplies, for
every entry, its diff by the total key multiplicity of the other side
(point-wise this is exactly the differential join).  `negate` flips diffs
and `concatenate` appends. -/

/-- A table collection at a fixed time. -/
abbrev Coll : Type := List ((Key × Value) × Int)

/-- Multiplicity of a `(key, value)` row in a collection: the sum of the
diffs of its entries. -/
def mult : Coll → (Key × Value) → Int
  | [], _ => 0
  | e :: es, kv => (if e.1 = kv then e.2 else 0) + mult es kv

/-- The keys arrangement of a table (`get_table_keys_persisted_arranged`). -/
def table_keys (c : Coll) : List (Key × Int) :=
  c.map (fun e => (e.1.1, e.2))

/-- Total multiplicity of a key in a keys arrangement. -/
def keyMult : List (Key × Int) → Key → Int
  | [], _ => 0
  | e :: es, k => (if e.1 = k then e.2 else 0) + keyMult es k

/-- `join_core` of a values arrangement with a keys arrangement
(`|k, values, ()| once((*k, values.clone()))`), point-wise in diff space. -/
def join_values_keys (c : Coll) (ks : List (Key × Int)) : Coll :=
  c.map (fun e => (e.1, e.2 * keyMult ks e.1.1))

/-- `join_core` of two keys arrangements (`|k, (), ()| once((*k, ()))`),
point-wise in diff space. -/
def join_keys_keys (a b : List (Key × Int)) : List (Key × Int) :=
  a.map (fun e => (e.1, e.2 * keyMult b e.1))

/-- `Collection::negate`. -/
def negate (c : Coll) : Coll :=
  c.map (fun e => (e.1, -e.2))

/-- `intersect_tables` (dataflow.rs:2060-2091): chain the key arrangements
of the other tables by inner key joins, then join the left values with the
result; with no other tables the input is returned unchanged. -/
def intersect_tables (t : Coll) (others : List Coll) : Coll :=
  match others with
  | [] => t
  | o :: rest =>
    join_values_keys t
      (rest.foldl (fun acc other => join_keys_keys acc (table_keys other)) (table_keys o))

/-- `subtract_table` (dataflow.rs:2129-2156): the left values concatenated
with the negated inner join of the left values and the right keys. -/
def subtract_table (l r : Coll) : Coll :=
  l ++ negate (join_values_keys l (table_keys r))

/-- `concat_tables` (dataflow.rs:2158-2174): `concatenate`. -/
def concat_tables (ts : List Coll) : Coll :=
  ts.foldr (fun t acc => t ++ acc) []

theorem mult_append (a b : Coll) (kv : Key × Value) :
    mult (a ++ b) kv = mult a kv + mult b kv := by
  induction a with
  | nil => simp [mult]
  | cons e es ih =>
    simp only [List.cons_append, mult]
    rw [show es.append b = es ++ b from rfl, ih]
    omega

theorem mult_negate (c : Coll) (kv : Key × Value) :
    mult (negate c) kv = -mult c kv := by
  induction c with
  | nil => rfl
  | cons e es ih =>
    simp only [negate, List.map_cons, mult] at ih ⊢
    by_cases he : e.1 = kv
    · rw [if_pos he, if_pos he]; omega
    · rw [if_neg he, if_neg he]; omega

/-- Claim C6: `concat(subtract(A, B), intersect(A, B)) = A` as multisets,
at every `(key, value)` row. -/
theorem C6_subtract_intersect_concat (A B : Coll) (kv : Key × Value) :
    mult (concat_tables [subtract_table A B, intersect_tables A [B]]) kv = mult A kv := by
  show mult (subtract_table A B ++ (intersect_tables A [B] ++ [])) kv = mult A kv
  rw [mult_append, mult_append]
  show mult (A ++ negate (join_values_keys A (table_keys B))) kv + _ = _
  rw [mult_append, mult_negate]
  show mult A kv + -mult (join_values_keys A (table_keys B)) kv +
    (mult (join_values_keys A (table_keys B)) kv + mult ([] : Coll) kv) = mult A kv
  have hnil : mult ([] : Coll) kv = 0 := rfl
  rw [hnil]
  omega

/-! ## Group-by reducers (dataflow.rs:3102-3543)

`group_by_table` extracts, per reducer, the argument values of each row via
`ReducerData::column_paths`; a row whose extracted values contain
`Value::Error` is dropped before reduction iff `skip_errors` is set
(dataflow.rs:3492-3504).  The generic `ReducerImpl` pipeline
(dataflow.rs:3112-3168) maps each row to `Option<State>` (`None` for rows
containing `Value::Error`), reduces the consolidated states per group (any
`None` poisons the group), and finishes `None` to `Value::Error`.  The
pipeline is parametric in the reducer's `init` / `combine` / `finish`. -/

/-- The per-reducer extraction step of `group_by_table`
(dataflow.rs:3492-3504); rows are `(source_key, (result_key, values))`. -/
def groupByExtractRow (paths : List ColumnPath) (skipErrors : Bool)
    (row : Key × Key × Value) : Except String (Option (Key × Key × List Value)) := do
  let new_values ← paths.mapM (fun p => p.extract row.1 row.2.2)
  pure (if containsError new_values && skipErrors then Option.none
    else some (row.1, row.2.1, new_values))

/-- `DataflowReducer::reduce` init stage (dataflow.rs:3125-3138): a row
whose values contain `Value::Error` gets state `None`; otherwise `init`,
with failures logged and converted to `None` (`ok_with_logger`). -/
def reducerInit {σ : Type} (init : Key → List Value → Except String σ)
    (row : Key × List Value) : Option σ :=
  if containsError row.2 then Option.none else (init row.1 row.2).toOption

/-- Unwraps the per-group consolidated states, `None` if any state is
`None` (dataflow.rs:3143-3152). -/
def unwrapStates {σ : Type} : List (Option σ × Nat) → Option (List (σ × Nat))
  | [] => some []
  | (Option.none, _) :: _ => Option.none
  | (some s, c) :: rest => (unwrapStates rest).map (fun l => (s, c) :: l)

/-- `DataflowReducer::reduce` combine stage (dataflow.rs:3140-3157). -/
def reducerCombine {σ : Type} (combine : List (σ × Nat) → Except String σ)
    (input : List (Option σ × Nat)) : Option σ :=
  match unwrapStates input with
  | Option.none => Option.none
  | some l => (combine l).toOption

/-- `DataflowReducer::reduce` finish stage (dataflow.rs:3158-3165). -/
def reducerFinish {σ : Type} (finish : σ → Value) : Option σ → Value
  | some s => finish s
  | Option.none => Value.error

/-- Differential consolidation of the init states of one group: the
distinct states with their multiplicities. -/
def consolidateCounts {σ : Type} [DecidableEq σ] (l : List (Option σ)) :
    List (Option σ × Nat) :=
  l.dedup.map (fun s => (s, l.count s))

/-- The generic `ReducerImpl` pipeline output for one group whose rows (at
a fixed time, each with diff `+1`) are given as a list. -/
def reducerOutput {σ : Type} [DecidableEq σ] (init : Key → List Value → Except String σ)
    (combine : List (σ × Nat) → Except String σ) (finish : σ → Value)
    (rows : List (Key × List Value)) : Value :=
  reducerFinish finish
    (reducerCombine combine (consolidateCounts (rows.map (reducerInit init))))

/-- `CountReducer::reduce` (dataflow.rs:3209-3228) for one group at a fixed
time: the rows are discarded and only the multiplicity is counted. -/
def count_reducer_output (rows : List (Key × List Value)) : Value :=
  Value.int rows.length

theorem unwrapStates_of_none {σ : Type} (input : List (Option σ × Nat)) (c : Nat)
    (h : (Option.none, c) ∈ input) : unwrapStates input = Option.none := by
  induction input with
  | nil => cases h
  | cons e rest ih =>
    match e with
    | (Option.none, _) => rfl
    | (some s, n) =>
      simp only [unwrapStates]
      rw [ih (by simpa using h)]
      rfl

/-- Claim C5 counterexample: the `Count` reducer is a group-by reducer, yet
a group consisting of a single row whose extracted values are
`[Value::Error]` reduces to `Int(1)`, not `Value::Error`. -/
theorem C5_counterexample :
    containsError [Value.error] = true ∧
    count_reducer_output [(Key.base 0, [Value.error])] = Value.int 1 ∧
    count_reducer_output [(Key.base 0, [Value.error])] ≠ Value.error := by
  refine ⟨rfl, rfl, by simp [count_reducer_output]⟩

/-- Claim C5 (amended): for reducers implemented through the generic
`ReducerImpl` pipeline and with `skip_errors` unset, any input row of a
group containing `Value::Error` among its extracted argument values makes
the group's output `Value::Error` (the row is not dropped by the
extraction step); the `Count`, `Earliest` and `Latest` reducers and
reducers with `skip_errors` set do not follow this rule. -/
theorem C5_amended {σ : Type} [DecidableEq σ]
    (init : Key → List Value → Except String σ)
    (combine : List (σ × Nat) → Except String σ) (finish : σ → Value)
    (rows : List (Key × List Value))
    (h : ∃ r ∈ rows, containsError r.2 = true) :
    reducerOutput init combine finish rows = Value.error ∧
    (∀ paths (row : Key × Key × Value) new_values,
      paths.mapM (fun p => ColumnPath.extract p row.1 row.2.2) = .ok new_values →
      groupByExtractRow paths false row = .ok (some (row.1, row.2.1, new_values))) := by
  constructor
  · obtain ⟨r, hr, herr⟩ := h
    have hnone : (Option.none : Option σ) ∈ rows.map (reducerInit init) :=
      List.mem_map.mpr ⟨r, hr, by simp [reducerInit, herr]⟩
    have hmem : ((Option.none : Option σ),
        (rows.map (reducerInit init)).count Option.none) ∈
        consolidateCounts (rows.map (reducerInit init)) :=
      List.mem_map.mpr ⟨Option.none, List.mem_dedup.mpr hnone, rfl⟩
    unfold reducerOutput reducerCombine
    rw [unwrapStates_of_none _ _ hmem]
    rfl
  · intro paths row new_values hmapm
    unfold groupByExtractRow
    rw [hmapm]
    simp

/-- A model `ReducerImpl` instance with the shape of the strict sum
reducer: `init` reads a single integer argument, `combine` sums states
weighted by multiplicity, `finish` wraps the integer. -/
def sumInit (_k : Key) (vs : List Value) : Except String Int :=
  match vs with
  | [.int i] => .ok i
  | _ => .error "expected a single int argument"

/-- `combine` of the model sum reducer. -/
def sumCombine (l : List (Int × Nat)) : Except String Int :=
  .ok (l.map (fun p => p.1 * (p.2 : Int))).sum

/-- `finish` of the model sum reducer. -/
def sumFinish (i : Int) : Value := .int i

/-- Claim C5 witness. -/
theorem C5_amended_witness :
    reducerOutput sumInit sumCombine sumFinish
      [(Key.base 0, [Value.error]), (Key.base 1, [Value.int 3])] = Value.error :=
  (C5_amended sumInit sumCombine sumFinish
    [(Key.base 0, [Value.error]), (Key.base 1, [Value.int 3])]
    ⟨(Key.base 0, [Value.error]), by simp, rfl⟩).1

/-! ## `ix_table` under `IxKeyPolicy::ForwardNone` (dataflow.rs:2490-2606)
and `make_output_keys_match_input_keys` (dataflow.rs:1302-1334)

The key table's lookup column is extracted per row; rows whose lookup value
is `None` are diverted to `none_keys` (emitting `(values, None)` pairs),
the rest are joined (by the pointed-to key) with the source table's values
arrangement.  Because the policy is not `SkipMissing`, the result then goes
through `make_output_keys_match_input_keys`: input rows not accounted for
in the output are re-added as `(values, Error)` pairs, logging
`KeyMissingInOutputTable` per consolidated leftover row. -/

/-- Per-`(time, key, value)` consolidation: collapse the entries of each
distinct row to a single entry with the net diff, dropping zeros. -/
def consolidate (c : Coll) : Coll :=
  (c.map (fun e => e.1)).dedup.filterMap (fun kv =>
    if mult c kv = 0 then Option.none else some (kv, mult c kv))

/-- The first component of an output tuple
(`values.as_tuple().expect(...)[0]`, dataflow.rs:1310-1317); every output
row built by `ix_table` is a non-empty tuple, so the default is never
taken. -/
def tupleFirst : Value → Value
  | .tuple (a :: _) => a
  | _ => .error

/-- The `ForwardNone` pipeline of `ix_table` on the key table and the
source (`to_ix`) table, at a fixed time: returns the logged errors and the
output collection.  `Except` captures the fatal paths (extraction failure,
non-pointer lookup value). -/
def ix_forward_none (path : ColumnPath) (keyTable source : Coll) :
    Except String (List DataError × Coll) := do
  let extracted ← keyTable.mapM (fun e =>
    (path.extract e.1.1 e.1.2).map (fun lv => ((e.1.1, e.1.2, lv), e.2)))
  let values_to_keys ← (extracted.filter (fun e => e.1.2.2 ≠ Value.none)).mapM
    (fun e => (Value.as_pointer e.1.2.2).map (fun p => ((p, e.1.1, e.1.2.1), e.2)))
  let joined := values_to_keys.flatMap (fun e =>
    (source.filter (fun s => s.1.1 = e.1.1)).map (fun s =>
      ((e.1.2.1, Value.tuple [e.1.2.2, s.1.2]), e.2 * s.2)))
  let none_keys := extracted.filterMap (fun e =>
    if e.1.2.2 = Value.none then some ((e.1.1, Value.tuple [e.1.2.1, Value.none]), e.2)
    else Option.none)
  let with_none := joined ++ none_keys
  let leftover := keyTable ++ negate (with_none.map (fun e => ((e.1.1, tupleFirst e.1.2), e.2)))
  let filled := (consolidate leftover).map (fun e =>
    ((e.1.1, Value.tuple [e.1.2, Value.error]), e.2))
  let errs := (consolidate leftover).map (fun e => DataError.keyMissingInOutputTable e.1.1)
  pure (errs, with_none ++ filled)

/-- Claim C3 counterexample: under `ForwardNone`, a key-table row whose
lookup value points to a key absent from the source table is *not*
dropped: it is re-added by `make_output_keys_match_input_keys` as a
`(values, Error)` pair, logging `KeyMissingInOutputTable`. -/
theorem C3_counterexample :
    ix_forward_none (.valuePath [0])
        [(((Key.base 0), Value.tuple [.pointer (.base 5)]), 1)] [] =
      .ok ([.keyMissingInOutputTable (.base 0)],
        [(((Key.base 0), Value.tuple [.tuple [.pointer (.base 5)], .error]), 1)]) ∧
    ([(((Key.base 0), Value.tuple [.tuple [.pointer (.base 5)], .error]), 1)] : Coll) ≠ [] := by
  refine ⟨by rfl, by simp⟩

/-- Claim C3 (amended): under `ForwardNone`, a key-table row whose lookup
value is `None` yields the output pair `(orig_values, None)` with no error;
a key-table row whose lookup value points to a key absent from the source
table is not dropped but re-emitted as `(orig_values, Error)` with a
`KeyMissingInOutputTable` log entry. -/
theorem C3_amended (p1 p2 : ColumnPath) (k1 k2 : Key) (v1 v2 : Value) (pt : Key)
    (src1 src2 : Coll)
    (h1 : p1.extract k1 v1 = .ok (.pointer pt))
    (hsrc : ∀ s ∈ src1, s.1.1 ≠ pt)
    (h2 : p2.extract k2 v2 = .ok Value.none) :
    ix_forward_none p1 [((k1, v1), 1)] src1 =
      .ok ([.keyMissingInOutputTable k1], [((k1, .tuple [v1, .error]), 1)]) ∧
    ix_forward_none p2 [((k2, v2), 1)] src2 =
      .ok ([], [((k2, .tuple [v2, Value.none]), 1)]) := by
  constructor
  · unfold ix_forward_none
    rw [List.mapM_cons, List.mapM_nil, h1]
    simp only [Except.map, bind, Except.bind, pure, Except.pure]
    rw [List.filter_cons_of_pos (by simp), List.filter_nil, List.mapM_cons, List.mapM_nil]
    simp only [Value.as_pointer, Except.map, bind, Except.bind, pure, Except.pure]
    simp only [List.flatMap_cons, List.flatMap_nil, List.filterMap_cons, List.filterMap_nil]
    rw [if_neg (show ¬(Value.pointer pt = Value.none) by simp)]
    rw [List.filter_eq_nil_iff.mpr (fun s hs => by simpa using hsrc s hs)]
    simp only [List.map_nil, List.append_nil, List.nil_append]
    simp [consolidate, mult, negate, tupleFirst]
  · unfold ix_forward_none
    rw [List.mapM_cons, List.mapM_nil, h2]
    simp only [Except.map, bind, Except.bind, pure, Except.pure]
    rw [List.filter_cons_of_neg (by simp), List.filter_nil, List.mapM_nil]
    simp only [bind, Except.bind, pure, Except.pure]
    simp only [List.flatMap_nil, List.filterMap_cons, List.filterMap_nil, ite_true]
    simp [consolidate, mult, negate, tupleFirst]

/-- Claim C3 witness. -/
theorem C3_amended_witness :
    ix_forward_none (.valuePath [0])
        [(((Key.base 0), Value.tuple [.pointer (.base 5)]), 1)] [] =
      .ok ([.keyMissingInOutputTable (.base 0)],
        [(((Key.base 0), Value.tuple [.tuple [.pointer (.base 5)], .error]), 1)]) ∧
    ix_forward_none (.valuePath [0])
        [(((Key.base 1), Value.tuple [Value.none]), 1)] [] =
      .ok ([], [(((Key.base 1), Value.tuple [.tuple [Value.none], Value.none]), 1)]) := by
  have h := C3_amended (.valuePath [0]) (.valuePath [0]) (.base 0) (.base 1)
    (Value.tuple [.pointer (.base 5)]) (Value.tuple [Value.none]) (.base 5) [] []
    rfl (by simp) rfl
  exact h

/-! ## `table_to_stream` (dataflow.rs:3020-3070)

The table is consolidated for output; each batch's data is stably sorted
by `(key, -diff)` ("insertions first" per key) and scanned: entries whose
key equals the previous entry's key are skipped ("skip deletion if there
was insertion before"), a diff of `+1`/`-1` emits one insertion row with
the payload extended by the `is_upsert` flag, and any other diff logs
`DuplicateKey` and emits nothing.

The sort uses the structural `Ord` of the Rust key/value types, modelled
below by total comparison functions (only reflexivity is needed by the
claims). -/

/-- Comparison on `Nat` (the shape of a derived `Ord`). -/
def natCmp (a b : Nat) : Ordering :=
  if a < b then .lt else if a = b then .eq else .gt

/-- Comparison on `Int`. -/
def intCmp (a b : Int) : Ordering :=
  if a < b then .lt else if a = b then .eq else .gt

/-- Comparison on `Bool` (`false < true`). -/
def boolCmp (a b : Bool) : Ordering :=
  match a, b with
  | false, true => .lt
  | true, false => .gt
  | _, _ => .eq

/-- Lexicographic comparison of lists. -/
def cmpList {α : Type} (cmp : α → α → Ordering) : List α → List α → Ordering
  | [], [] => .eq
  | [], _ :: _ => .lt
  | _ :: _, [] => .gt
  | a :: as, b :: bs => (cmp a b).then (cmpList cmp as bs)

/-- Comparison on `Char`. -/
def charCmp (a b : Char) : Ordering := natCmp a.toNat b.toNat

/-- Lexicographic comparison on `String`. -/
def strCmp (a b : String) : Ordering := cmpList charCmp a.data b.data

/-- Constructor rank of `Json`, ordering values of distinct variants. -/
def Json.rank : Json → Nat
  | .null => 0 | .bool _ => 1 | .int _ => 2 | .str _ => 3 | .arr _ => 4

mutual
/-- Structural comparison on `Json`. -/
def Json.cmp : Json → Json → Ordering
  | .null, .null => .eq
  | .bool a, .bool b => boolCmp a b
  | .int a, .int b => intCmp a b
  | .str a, .str b => strCmp a b
  | .arr a, .arr b => Json.cmpList a b
  | a, b => natCmp a.rank b.rank

/-- Lexicographic comparison on lists of `Json`. -/
def Json.cmpList : List Json → List Json → Ordering
  | [], [] => .eq
  | [], _ :: _ => .lt
  | _ :: _, [] => .gt
  | a :: as, b :: bs => (Json.cmp a b).then (Json.cmpList as bs)
end

/-- Constructor rank of `Value`. -/
def Value.rank : Value → Nat
  | .none => 0 | .bool _ => 1 | .int _ => 2 | .str _ => 3 | .pointer _ => 4
  | .tuple _ => 5 | .intArray _ _ => 6 | .json _ => 7 | .error => 8 | .pending => 9

/-- Constructor rank of `Key`. -/
def Key.rank : Key → Nat
  | .base _ => 0 | .forValues _ => 1 | .withShardOf _ _ => 2

mutual
/-- Structural comparison on `Value`. -/
def Value.cmp : Value → Value → Ordering
  | .none, .none => .eq
  | .bool a, .bool b => boolCmp a b
  | .int a, .int b => intCmp a b
  | .str a, .str b => strCmp a b
  | .pointer a, .pointer b => Key.cmp a b
  | .tuple a, .tuple b => Value.cmpList a b
  | .intArray sa ea, .intArray sb eb => (cmpList natCmp sa sb).then (cmpList intCmp ea eb)
  | .json a, .json b => Json.cmp a b
  | .error, .error => .eq
  | .pending, .pending => .eq
  | a, b => natCmp a.rank b.rank

/-- Lexicographic comparison on lists of `Value`. -/
def Value.cmpList : List Value → List Value → Ordering
  | [], [] => .eq
  | [], _ :: _ => .lt
  | _ :: _, [] => .gt
  | a :: as, b :: bs => (Value.cmp a b).then (Value.cmpList as bs)

/-- Structural comparison on `Key`. -/
def Key.cmp : Key → Key → Ordering
  | .base m, .base n => natCmp m n
  | .forValues a, .forValues b => Value.cmpList a b
  | .withShardOf k1 o1, .withShardOf k2 o2 => (Key.cmp k1 k2).then (Key.cmp o1 o2)
  | a, b => natCmp a.rank b.rank
end

theorem natCmp_self (n : Nat) : natCmp n n = .eq := by simp [natCmp]

theorem cmpList_self {α : Type} (cmp : α → α → Ordering) (l : List α)
    (h : ∀ x ∈ l, cmp x x = .eq) : cmpList cmp l l = .eq := by
  induction l with
  | nil => rfl
  | cons a as ih =>
    simp only [cmpList]
    rw [h a (by simp), ih (fun x hx => h x (by simp [hx]))]
    rfl

theorem strCmp_self (s : String) : strCmp s s = .eq :=
  cmpList_self charCmp s.data (fun x _ => by simp [charCmp, natCmp])

theorem jsonCmp_self_aux :
    ∀ n, (∀ a : Json, sizeOf a ≤ n → Json.cmp a a = .eq) ∧
      (∀ l : List Json, sizeOf l ≤ n → Json.cmpList l l = .eq) := by
  intro n
  induction n using Nat.strong_induction_on with
  | _ n ih =>
    constructor
    · intro a hs
      cases a
      case null => rfl
      case bool b => cases b <;> rfl
      case int i => simp [Json.cmp, intCmp]
      case str s => simp [Json.cmp, strCmp_self]
      case arr l =>
        have hlt : sizeOf l < n := by simp at hs; omega
        simp only [Json.cmp]
        exact (ih (sizeOf l) hlt).2 l le_rfl
    · intro l hs
      cases l with
      | nil => rfl
      | cons a as =>
        have ha : sizeOf a < n := by simp at hs; omega
        have has : sizeOf as < n := by simp at hs; omega
        simp only [Json.cmpList]
        rw [(ih (sizeOf a) ha).1 a le_rfl, (ih (sizeOf as) has).2 as le_rfl]
        rfl

theorem valueCmp_self_aux :
    ∀ n, (∀ a : Value, sizeOf a ≤ n → Value.cmp a a = .eq) ∧
      (∀ l : List Value, sizeOf l ≤ n → Value.cmpList l l = .eq) ∧
      (∀ k : Key, sizeOf k ≤ n → Key.cmp k k = .eq) := by
  intro n
  induction n using Nat.strong_induction_on with
  | _ n ih =>
    refine ⟨?_, ?_, ?_⟩
    · intro a hs
      cases a
      case none => rfl
      case bool b => cases b <;> rfl
      case int i => simp [Value.cmp, intCmp]
      case str s => simp [Value.cmp, strCmp_self]
      case pointer k =>
        have hlt : sizeOf k < n := by simp at hs; omega
        simp only [Value.cmp]
        exact (ih (sizeOf k) hlt).2.2 k le_rfl
      case tuple l =>
        have hlt : sizeOf l < n := by simp at hs; omega
        simp only [Value.cmp]
        exact (ih (sizeOf l) hlt).2.1 l le_rfl
      case intArray sa ea =>
        simp only [Value.cmp]
        rw [cmpList_self natCmp sa (fun x _ => natCmp_self x),
          cmpList_self intCmp ea (fun x _ => by simp [intCmp])]
        rfl
      case json j => simp only [Value.cmp]; exact (jsonCmp_self_aux (sizeOf j)).1 j le_rfl
      case error => rfl
      case pending => rfl
    · intro l hs
      cases l with
      | nil => rfl
      | cons a as =>
        have ha : sizeOf a < n := by simp at hs; omega
        have has : sizeOf as < n := by simp at hs; omega
        simp only [Value.cmpList]
        rw [(ih (sizeOf a) ha).1 a le_rfl, (ih (sizeOf as) has).2.1 as le_rfl]
        rfl
    · intro k hs
      cases k
      case base m => simp [Key.cmp, natCmp_self]
      case forValues l =>
        have hlt : sizeOf l < n := by simp at hs; omega
        simp only [Key.cmp]
        exact (ih (sizeOf l) hlt).2.1 l le_rfl
      case withShardOf k1 o1 =>
        have hk : sizeOf k1 < n := by simp at hs; omega
        have ho : sizeOf o1 < n := by simp at hs; omega
        simp only [Key.cmp]
        rw [(ih (sizeOf k1) hk).2.2 k1 le_rfl, (ih (sizeOf o1) ho).2.2 o1 le_rfl]
        rfl

theorem Key.cmp_self (k : Key) : Key.cmp k k = .eq :=
  (valueCmp_self_aux (sizeOf k)).2.2 k le_rfl

/-- The sort key of `data.sort_by_key(|((key, _values), diff)| (key, -diff))`
(dataflow.rs:3036): lexicographic on the key, then on the negated diff, so
that insertions come first within a key. -/
def sortPairLe (a b : (Key × Value) × Int) : Bool :=
  match Key.cmp a.1.1 b.1.1 with
  | .lt => true
  | .gt => false
  | .eq => decide (-a.2 ≤ -b.2)

/-- One consolidated output batch (`OutputBatch { time, data }`). -/
structure OutputBatch where
  time : Nat
  data : List ((Key × Value) × Int)

/-- The scan of `table_to_stream`'s `flat_map` closure over the sorted
batch data (dataflow.rs:3037-3063): skip an entry whose key equals the
previous entry's key; emit an insertion row with the `is_upsert` flag for
diff `+1`/`-1`; log `DuplicateKey` for any other diff. -/
def table_to_stream_loop (time : Nat) (previous_key : Option Key) :
    List ((Key × Value) × Int) → List DataError × List ((Key × Value) × Nat × Int)
  | [] => ([], [])
  | ((k, v), d) :: rest =>
    if previous_key = some k then table_to_stream_loop time previous_key rest
    else
      let tail := table_to_stream_loop time (some k) rest
      match d with
      | 1 => (tail.1, ((k, Value.tuple [v, Value.bool true]), time, 1) :: tail.2)
      | -1 => (tail.1, ((k, Value.tuple [v, Value.bool false]), time, 1) :: tail.2)
      | _ => (DataError.duplicateKey k :: tail.1, tail.2)

/-- The `flat_map` closure of `table_to_stream` on one consolidated batch:
stable sort by `(key, -diff)`, then scan. -/
def table_to_stream_batch (batch : OutputBatch) :
    List DataError × List ((Key × Value) × Nat × Int) :=
  table_to_stream_loop batch.time Option.none
    (List.insertionSort (fun a b => sortPairLe a b = true) batch.data)

/-- The insertion row emitted for a consolidated entry. -/
def streamRow (time : Nat) (e : (Key × Value) × Int) : (Key × Value) × Nat × Int :=
  ((e.1.1, Value.tuple [e.1.2, Value.bool (e.2 = 1)]), time, 1)

theorem table_to_stream_loop_no_skip (time : Nat) (l : List ((Key × Value) × Int))
    (prev : Option Key)
    (hdist : l.Pairwise (fun a b => a.1.1 ≠ b.1.1))
    (hdiff : ∀ e ∈ l, e.2 = 1 ∨ e.2 = -1)
    (hprev : ∀ e ∈ l, prev ≠ some e.1.1) :
    table_to_stream_loop time prev l = ([], l.map (streamRow time)) := by
  induction l generalizing prev with
  | nil => rfl
  | cons e rest ih =>
    obtain ⟨⟨k, v⟩, d⟩ := e
    rw [List.pairwise_cons] at hdist
    have hne : prev ≠ some k := hprev ((k, v), d) (List.mem_cons_self _ _)
    have htail : table_to_stream_loop time (some k) rest = ([], rest.map (streamRow time)) :=
      ih (some k) hdist.2 (fun e he => hdiff e (List.mem_cons_of_mem _ he))
        (fun e he => by simpa using hdist.1 e he)
    rcases hdiff ((k, v), d) (List.mem_cons_self _ _) with hd | hd <;>
      simp_all [table_to_stream_loop, streamRow, hne]

/-- Claim C2 counterexample: a consolidated batch in which the same key
carries both a deletion (old values) and an insertion (new values) at one
time emits only the insertion row; the deletion entry produces no output
row, contradicting "every (key, values, time, diff) with diff = +1 or -1
emits exactly one output insertion row". -/
theorem C2_counterexample :
    table_to_stream_batch ⟨7, [((Key.base 0, Value.str "a"), -1), ((Key.base 0, Value.str "b"), 1)]⟩ =
      ([], [((Key.base 0, Value.tuple [Value.str "b", Value.bool true]), 7, 1)]) ∧
    ∀ r ∈ (table_to_stream_batch ⟨7, [((Key.base 0, Value.str "a"), -1),
        ((Key.base 0, Value.str "b"), 1)]⟩).2,
      r.1.2 ≠ Value.tuple [Value.str "a", Value.bool false] := by
  refine ⟨by rfl, ?_⟩
  intro r hr
  rw [show (table_to_stream_batch ⟨7, [((Key.base 0, Value.str "a"), -1),
      ((Key.base 0, Value.str "b"), 1)]⟩).2 =
    [((Key.base 0, Value.tuple [Value.str "b", Value.bool true]), 7, 1)] from rfl] at hr
  simp at hr
  simp [hr]

/-- Claim C2 (amended): `table_to_stream` consolidates its input and emits,
per consolidated batch, at most one insertion row per key: the batch is
stably sorted by `(key, -diff)` so that within each key the insertion
precedes the deletion, and any entry whose key already appeared in the
sorted batch is skipped.  When the batch's keys are pairwise distinct and
all diffs are `+1`/`-1`, every entry emits exactly one insertion row whose
payload is the original values extended with `is_upsert` (`true` for `+1`,
`false` for `-1`), with no error; for a key carrying both a deletion and an
insertion at one time, only the insertion row (flag `true`) is emitted. -/
theorem C2_amended (batch : OutputBatch)
    (hdist : batch.data.Pairwise (fun a b => a.1.1 ≠ b.1.1))
    (hdiff : ∀ e ∈ batch.data, e.2 = 1 ∨ e.2 = -1) :
    (table_to_stream_batch batch).1 = [] ∧
    (table_to_stream_batch batch).2.Perm (batch.data.map (streamRow batch.time)) ∧
    (∀ (k : Key) (a b : Value) (time : Nat),
      table_to_stream_batch ⟨time, [((k, a), -1), ((k, b), 1)]⟩ =
        ([], [((k, Value.tuple [b, Value.bool true]), time, 1)])) := by
  have hperm := List.perm_insertionSort (fun a b => sortPairLe a b = true) batch.data
  have hdist' : (List.insertionSort (fun a b => sortPairLe a b = true) batch.data).Pairwise
      (fun a b => a.1.1 ≠ b.1.1) :=
    (hperm.pairwise_iff (fun {a b} h => (h ·.symm))).mpr hdist
  have hloop := table_to_stream_loop_no_skip batch.time
    (List.insertionSort (fun a b => sortPairLe a b = true) batch.data) Option.none
    hdist' (fun e he => hdiff e (hperm.mem_iff.mp he)) (fun e _ => by simp)
  refine ⟨?_, ?_, ?_⟩
  · unfold table_to_stream_batch
    rw [hloop]
  · unfold table_to_stream_batch
    rw [hloop]
    exact hperm.map (streamRow batch.time)
  · intro k a b time
    unfold table_to_stream_batch
    simp only [List.insertionSort, List.orderedInsert]
    rw [if_neg (by simp [sortPairLe, Key.cmp_self])]
    simp [table_to_stream_loop]

/-- Claim C2 witness. -/
theorem C2_amended_witness :
    (table_to_stream_batch ⟨3, [((Key.base 0, Value.int 1), 1), ((Key.base 1, Value.int 2), -1)]⟩).1
      = [] ∧
    (table_to_stream_batch ⟨3, [((Key.base 0, Value.int 1), 1),
        ((Key.base 1, Value.int 2), -1)]⟩).2.Perm
      [((Key.base 0, Value.tuple [Value.int 1, Value.bool true]), 3, 1),
       ((Key.base 1, Value.tuple [Value.int 2, Value.bool false]), 3, 1)] := by
  have h := C2_amended ⟨3, [((Key.base 0, Value.int 1), 1), ((Key.base 1, Value.int 2), -1)]⟩
    (by simp [List.pairwise_cons]) (by simp)
  exact ⟨h.1, h.2.1⟩
